import Mathlib

/-!
Shallow embedding of the `motor` WebAssembly runtime (src/binary.rs and
src/bin/motor.rs) together with proofs about its binary decoder, start-function
resolver and JIT opcode loop.

The byte stream of the Rust code (a `File` read sequentially) is modelled as a
`List Nat` of bytes; every parser takes the stream and returns the decoded
value together with the unconsumed remainder, or a `ParseError`.  Machine
integers are modelled as `Nat`/`Int` with explicit `% 2 ^ 64` / `% 2 ^ 32`
truncation where the Rust code relies on fixed-width behaviour.
-/

/-- Decidable equality for `Except`, needed to evaluate parser results on
concrete inputs with `decide`. -/
instance {ε α : Type} [DecidableEq ε] [DecidableEq α] : DecidableEq (Except ε α) := fun
  | .error e, .error f =>
    if h : e = f then .isTrue (by rw [h]) else .isFalse (by simp [h])
  | .error _, .ok _ => .isFalse (by simp)
  | .ok _, .error _ => .isFalse (by simp)
  | .ok a, .ok b =>
    if h : a = b then .isTrue (by rw [h]) else .isFalse (by simp [h])

namespace Motor

/-- Errors of the `leb128` crate's reader (`leb128::read::Error`): an I/O
failure (stream exhausted) or an overflow of the 64-bit result. -/
inductive Leb128Error where
  | ioError
  | overflow
deriving DecidableEq, Repr

/-- The decoder's error type, mirroring `ParseError` in src/binary.rs.  The
`IoError`/`Utf8Error` payloads (library error objects) are dropped. -/
inductive ParseError where
  | BadMagic (v : Nat)
  | UnsupportedVersion (v : Nat)
  | InvalidValueType (v : Int)
  | InvalidExternalKind (v : Nat)
  | IoError
  | Utf8Error
  | DecodeError (e : Leb128Error)
deriving DecidableEq, Repr

/-- Value types, mirroring `ValueType` in src/binary.rs. -/
inductive ValueType where
  | I32
  | I64
  | F32
  | F64
deriving DecidableEq, Repr

/-- Local-variable entry of a function body, mirroring `LocalEntry`. -/
structure LocalEntry where
  count : Nat
  ty : ValueType
deriving DecidableEq, Repr

/-- A function body, mirroring `FunctionBody`: local declarations plus the raw
opcode bytes. -/
structure FunctionBody where
  locals : List LocalEntry
  code : List Nat
deriving DecidableEq, Repr

/-- A function signature, mirroring `FuncType`; `form` is the `varint7` tag. -/
structure FuncType where
  form : Int
  param_types : List ValueType
  return_type : Option ValueType
deriving DecidableEq, Repr

/-- External kind of an export, mirroring `ExternalKind`. -/
inductive ExternalKind where
  | Function
  | Table
  | Memory
  | Global
deriving DecidableEq, Repr

/-- An export entry, mirroring `ExportEntry`.  The `field_name` `String` is
kept as its UTF-8 byte sequence (validated during parsing, as in the source). -/
structure ExportEntry where
  field_name : List Nat
  kind : ExternalKind
  index : Nat
deriving DecidableEq, Repr

/-- Resizable limits of a memory, mirroring `ResizableLimits`. -/
structure ResizableLimits where
  initial : Nat
  maximum : Option Nat
deriving DecidableEq, Repr

/-- A memory type, mirroring `MemoryType`. -/
structure MemoryType where
  limits : ResizableLimits
deriving DecidableEq, Repr

/-- A decoded section, mirroring `enum Section` in src/binary.rs.  The Rust
`Type` variant is called `TypeSec` because `Type` is reserved in Lean. -/
inductive Section where
  | Custom
  | TypeSec (entries : List FuncType)
  | Function (types : List Nat)
  | Memory (entries : List MemoryType)
  | Export (entries : List ExportEntry)
  | Start (index : Nat)
  | Code (bodies : List FunctionBody)
  | Unknown (id : Nat)
deriving DecidableEq, Repr

/-- A decoded module, mirroring `struct Module`. -/
structure Module where
  magic_number : Nat
  version : Nat
  sections : List Section
deriving DecidableEq, Repr

/-! ### LEB128 reader (the `leb128` crate's `read::signed`)

`leb128::read::signed` accumulates 7-bit chunks into an `i64` (modelled as the
64-bit pattern, a `Nat < 2 ^ 64`), errors with `Overflow` when a chunk at shift
63 carries significant bits (after skipping the remaining continuation bytes),
and sign-extends from the last chunk's bit 6 when fewer than 64 bits were
filled. -/

/-- The overflow path of `leb128::read::signed`: skip continuation bytes, then
report `Overflow`; a truncated stream during the skip is an I/O error. -/
def skip_cont_bytes (b : Nat) : List Nat → Leb128Error
  | [] => if b < 128 then .overflow else .ioError
  | b' :: rest => if b < 128 then .overflow else skip_cont_bytes b' rest

/-- The accumulation loop of `leb128::read::signed`.  Returns the accumulated
64-bit pattern, the final (non-continuation) byte, the final shift value and
the unconsumed stream. -/
def slebLoop : List Nat → Nat → Nat → Except Leb128Error (Nat × Nat × Nat × List Nat)
  | [], _, _ => .error .ioError
  | b :: rest, shift, acc =>
    if shift = 63 ∧ b ≠ 0 ∧ b ≠ 127 then
      .error (skip_cont_bytes b rest)
    else
      let acc' := acc ||| (b % 128 * 2 ^ shift % 2 ^ 64)
      if 128 ≤ b then slebLoop rest (shift + 7) acc'
      else .ok (acc', b, shift + 7, rest)

/-- Embedding of `leb128::read::signed`: the result is returned as the 64-bit
bit pattern of the decoded `i64`. -/
def leb128_read_signed (s : List Nat) : Except Leb128Error (Nat × List Nat) :=
  match slebLoop s 0 0 with
  | .error e => .error e
  | .ok (acc, lastByte, shift, rest) =>
    if shift < 64 ∧ lastByte / 64 % 2 = 1 then
      .ok (acc ||| (2 ^ 64 - 2 ^ shift), rest)
    else
      .ok (acc, rest)

/-- Embedding of `Section::parse_varuint32`: decode a signed LEB128 value and
reinterpret the low 32 bits of its pattern as a `u32`. -/
def Section.parse_varuint32 (s : List Nat) : Except ParseError (Nat × List Nat) :=
  match leb128_read_signed s with
  | .error e => .error (.DecodeError e)
  | .ok (p, rest) => .ok (p % 2 ^ 32, rest)

/-- Embedding of `Section::parse_varint7`: decode a signed LEB128 value and
narrow it to an `i8` (returned as the represented integer in `[-128, 127]`). -/
def Section.parse_varint7 (s : List Nat) : Except ParseError (Int × List Nat) :=
  match leb128_read_signed s with
  | .error e => .error (.DecodeError e)
  | .ok (p, rest) =>
    let b := p % 256
    .ok (if b < 128 then (b : Int) else (b : Int) - 256, rest)

/-- Embedding of `Section::parse_varuint1`: decode a signed LEB128 value and
narrow it to a `u8`. -/
def Section.parse_varuint1 (s : List Nat) : Except ParseError (Nat × List Nat) :=
  match leb128_read_signed s with
  | .error e => .error (.DecodeError e)
  | .ok (p, rest) => .ok (p % 256, rest)

/-! ### Parsing combinators

Rust's `try!` either propagates the error or continues with the decoded value;
`tryBind` is that control flow for parsers that also thread the stream, and
`countLoop` is the `for _ in 0..count { entries.push(try!(...)) }` pattern each
count-prefixed section uses. -/

/-- Propagate a parse error, or continue with the decoded value and the rest of
the stream (Rust's `try!` on a `(value, stream)` parser). -/
def tryBind {α β : Type} (x : Except ParseError (α × List Nat))
    (f : α → List Nat → Except ParseError β) : Except ParseError β :=
  match x with
  | .error e => .error e
  | .ok (a, s) => f a s

/-- Decode `n` consecutive entries with `p`, collecting them in order (the
`for _ in 0..count` loops of src/binary.rs). -/
def countLoop {α : Type} (p : List Nat → Except ParseError (α × List Nat)) :
    Nat → List Nat → Except ParseError (List α × List Nat)
  | 0, s => .ok ([], s)
  | n + 1, s =>
    tryBind (p s) fun a s1 =>
    tryBind (countLoop p n s1) fun as s2 =>
    .ok (a :: as, s2)

/-- Embedding of `Read::read_exact` into an `n`-byte buffer: yields exactly the
next `n` bytes, or the I/O error the source wraps into `ParseError::IoError`
when the stream is shorter. -/
def readExact (n : Nat) (s : List Nat) : Except ParseError (List Nat × List Nat) :=
  if n ≤ s.length then .ok (s.take n, s.drop n) else .error .IoError

/-- Modelled from the Rust standard library: continuation-byte test of the
UTF-8 well-formedness check behind `String::from_utf8`. -/
def utf8Cont (b : Nat) : Bool := 128 ≤ b && b ≤ 191

/-- Modelled from the Rust standard library: `String::from_utf8` (used by
`Section::parse_export_entry`) succeeds exactly on well-formed UTF-8 — no
overlong forms, no surrogates, code points at most U+10FFFF. -/
def utf8Valid : List Nat → Bool
  | [] => true
  | b :: rest =>
    if b ≤ 0x7F then utf8Valid rest
    else if 0xC2 ≤ b && b ≤ 0xDF then
      match rest with
      | c1 :: rest1 => utf8Cont c1 && utf8Valid rest1
      | [] => false
    else if 0xE0 ≤ b && b ≤ 0xEF then
      match rest with
      | c1 :: c2 :: rest2 =>
        (if b = 0xE0 then 0xA0 ≤ c1 && c1 ≤ 0xBF
         else if b = 0xED then 0x80 ≤ c1 && c1 ≤ 0x9F
         else utf8Cont c1) && utf8Cont c2 && utf8Valid rest2
      | _ => false
    else if 0xF0 ≤ b && b ≤ 0xF4 then
      match rest with
      | c1 :: c2 :: c3 :: rest3 =>
        (if b = 0xF0 then 0x90 ≤ c1 && c1 ≤ 0xBF
         else if b = 0xF4 then 0x80 ≤ c1 && c1 ≤ 0x8F
         else utf8Cont c1) && utf8Cont c2 && utf8Cont c3 && utf8Valid rest3
      | _ => false
    else false

/-! ### Structured parsers of src/binary.rs

Each Rust section parser returns `Ok(Some(section))` on success; the `Some` is
invariant, so the embeddings return `Except ParseError (Section × List Nat)`
and `Section.parse` re-wraps the result in `Option` exactly where the source's
`Ok(None)` "no more sections" outcome arises. -/

/-- Embedding of `Section::parse_value_type`: a `varint7` tag, mapped to a
`ValueType` or rejected as `InvalidValueType`. -/
def Section.parse_value_type (s : List Nat) : Except ParseError (ValueType × List Nat) :=
  tryBind (Section.parse_varint7 s) fun ty s1 =>
    if ty = -1 then .ok (.I32, s1)
    else if ty = -2 then .ok (.I64, s1)
    else if ty = -3 then .ok (.F32, s1)
    else if ty = -4 then .ok (.F64, s1)
    else .error (.InvalidValueType ty)

/-- Embedding of `Section::parse_func_type`: form tag, count-prefixed parameter
types, then an optional return type guarded by a `varuint1` count. -/
def Section.parse_func_type (s : List Nat) : Except ParseError (FuncType × List Nat) :=
  tryBind (Section.parse_varint7 s) fun form s1 =>
  tryBind (Section.parse_varuint32 s1) fun param_count s2 =>
  tryBind (countLoop Section.parse_value_type param_count s2) fun param_types s3 =>
  tryBind (Section.parse_varuint1 s3) fun return_count s4 =>
  if 0 < return_count then
    tryBind (Section.parse_value_type s4) fun ty s5 =>
    .ok ({ form := form, param_types := param_types, return_type := some ty }, s5)
  else
    .ok ({ form := form, param_types := param_types, return_type := none }, s4)

/-- Embedding of `Section::parse_type_section`. -/
def Section.parse_type_section (s : List Nat) : Except ParseError (Section × List Nat) :=
  tryBind (Section.parse_varuint32 s) fun count s1 =>
  tryBind (countLoop Section.parse_func_type count s1) fun entries s2 =>
  .ok (.TypeSec entries, s2)

/-- Embedding of `Section::parse_function_section`. -/
def Section.parse_function_section (s : List Nat) : Except ParseError (Section × List Nat) :=
  tryBind (Section.parse_varuint32 s) fun count s1 =>
  tryBind (countLoop Section.parse_varuint32 count s1) fun types s2 =>
  .ok (.Function types, s2)

/-- The `match external_kind[0]` arm of `Section::parse_export_entry`: bytes
0–3 name an `ExternalKind`, anything else is `InvalidExternalKind`. -/
def parse_external_kind (b : Nat) : Except ParseError ExternalKind :=
  if b = 0 then .ok .Function
  else if b = 1 then .ok .Table
  else if b = 2 then .ok .Memory
  else if b = 3 then .ok .Global
  else .error (.InvalidExternalKind b)

/-- Embedding of `Section::parse_export_entry`: length-prefixed name bytes, a
one-byte external kind, the export index, then UTF-8 validation of the name. -/
def Section.parse_export_entry (s : List Nat) : Except ParseError (ExportEntry × List Nat) :=
  tryBind (Section.parse_varuint32 s) fun field_len s1 =>
  tryBind (readExact field_len s1) fun field_str s2 =>
  tryBind (readExact 1 s2) fun kind_bytes s3 =>
  match parse_external_kind (kind_bytes.headD 0) with
  | .error e => .error e
  | .ok kind =>
    tryBind (Section.parse_varuint32 s3) fun index s4 =>
    if utf8Valid field_str then
      .ok ({ field_name := field_str, kind := kind, index := index }, s4)
    else
      .error .Utf8Error

/-- Embedding of `Section::parse_export_section`. -/
def Section.parse_export_section (s : List Nat) : Except ParseError (Section × List Nat) :=
  tryBind (Section.parse_varuint32 s) fun count s1 =>
  tryBind (countLoop Section.parse_export_entry count s1) fun entries s2 =>
  .ok (.Export entries, s2)

/-- Embedding of `Section::parse_resizable_limits`: `varuint1` flag, `varuint32`
initial, and a `varuint32` maximum exactly when the flag equals 1. -/
def Section.parse_resizable_limits (s : List Nat) :
    Except ParseError (ResizableLimits × List Nat) :=
  tryBind (Section.parse_varuint1 s) fun flags s1 =>
  tryBind (Section.parse_varuint32 s1) fun initial s2 =>
  if flags = 1 then
    tryBind (Section.parse_varuint32 s2) fun maximum_raw s3 =>
    .ok ({ initial := initial, maximum := some maximum_raw }, s3)
  else
    .ok ({ initial := initial, maximum := none }, s2)

/-- Embedding of `Section::parse_memory_type`. -/
def Section.parse_memory_type (s : List Nat) : Except ParseError (MemoryType × List Nat) :=
  tryBind (Section.parse_resizable_limits s) fun limits s1 =>
  .ok ({ limits := limits }, s1)

/-- Embedding of `Section::parse_memory_section`. -/
def Section.parse_memory_section (s : List Nat) : Except ParseError (Section × List Nat) :=
  tryBind (Section.parse_varuint32 s) fun count s1 =>
  tryBind (countLoop Section.parse_memory_type count s1) fun entries s2 =>
  .ok (.Memory entries, s2)

/-- Embedding of `Section::parse_start_section`. -/
def Section.parse_start_section (s : List Nat) : Except ParseError (Section × List Nat) :=
  tryBind (Section.parse_varuint32 s) fun index s1 =>
  .ok (.Start index, s1)

/-- Embedding of `Section::parse_local_entry`. -/
def Section.parse_local_entry (s : List Nat) : Except ParseError (LocalEntry × List Nat) :=
  tryBind (Section.parse_varuint32 s) fun count s1 =>
  tryBind (Section.parse_value_type s1) fun ty s2 =>
  .ok ({ count := count, ty := ty }, s2)

/-- The opcode-collecting loop of `Section::parse_function_body`: single-byte
reads accumulated until the `0x0B` end marker (excluded); a truncated stream is
an I/O error. -/
def Section.parse_code_bytes : List Nat → Except ParseError (List Nat × List Nat)
  | [] => .error .IoError
  | b :: rest =>
    if b = 0x0B then .ok ([], rest)
    else
      tryBind (Section.parse_code_bytes rest) fun code s1 =>
      .ok (b :: code, s1)

/-- Embedding of `Section::parse_function_body`: ignored body size, local
entries, then the opcode bytes up to the end marker. -/
def Section.parse_function_body (s : List Nat) : Except ParseError (FunctionBody × List Nat) :=
  tryBind (Section.parse_varuint32 s) fun _body_size s1 =>
  tryBind (Section.parse_varuint32 s1) fun local_count s2 =>
  tryBind (countLoop Section.parse_local_entry local_count s2) fun locals s3 =>
  tryBind (Section.parse_code_bytes s3) fun code s4 =>
  .ok ({ locals := locals, code := code }, s4)

/-- Embedding of `Section::parse_code_section`. -/
def Section.parse_code_section (s : List Nat) : Except ParseError (Section × List Nat) :=
  tryBind (Section.parse_varuint32 s) fun count s1 =>
  tryBind (countLoop Section.parse_function_body count s1) fun bodies s2 =>
  .ok (.Code bodies, s2)

/-- Embedding of `Section::parse_custom_section`: a `varuint32` name length,
`name_len` name bytes, and then a further `payload_len` payload bytes. -/
def Section.parse_custom_section (s : List Nat) (payload_len : Nat) :
    Except ParseError (Section × List Nat) :=
  tryBind (Section.parse_varuint32 s) fun name_len s1 =>
  tryBind (readExact name_len s1) fun _name s2 =>
  tryBind (readExact payload_len s2) fun _payload s3 =>
  .ok (.Custom, s3)

/-- Embedding of `Section::parse_unknown_section`: skip `payload_len` bytes and
retain only the id. -/
def Section.parse_unknown_section (s : List Nat) (id payload_len : Nat) :
    Except ParseError (Section × List Nat) :=
  tryBind (readExact payload_len s) fun _payload s1 =>
  .ok (.Unknown id, s1)

/-- Embedding of `Section::parse`: a failed section-id read is reported as
"no more sections" (`Ok(None)`); otherwise the payload length is read and the
section is dispatched on the id. -/
def Section.parse (s : List Nat) : Except ParseError (Option (Section × List Nat)) :=
  match Section.parse_varuint32 s with
  | .error _ => .ok none
  | .ok (id, s1) =>
    tryBind (Section.parse_varuint32 s1) fun payload_len s2 =>
    tryBind
      (if id = 0 then Section.parse_custom_section s2 payload_len
       else if id = 1 then Section.parse_type_section s2
       else if id = 3 then Section.parse_function_section s2
       else if id = 7 then Section.parse_export_section s2
       else if id = 8 then Section.parse_start_section s2
       else if id = 5 then Section.parse_memory_section s2
       else if id = 10 then Section.parse_code_section s2
       else Section.parse_unknown_section s2 id payload_len) fun sec s3 =>
    .ok (some (sec, s3))

/-! ### Stream-consumption lemmas

Every parser only ever moves forward in the stream, and a LEB128 read consumes
at least one byte; these bounds justify the termination of the section loop of
`Module::parse`. -/

theorem tryBind_ok {α β : Type} {x : Except ParseError (α × List Nat)}
    {f : α → List Nat → Except ParseError β} {v : β}
    (h : tryBind x f = .ok v) : ∃ a s, x = .ok (a, s) ∧ f a s = .ok v := by
  cases x with
  | error e => simp [tryBind] at h
  | ok q =>
    obtain ⟨a, s⟩ := q
    exact ⟨a, s, rfl, h⟩

theorem slebLoop_length : ∀ (s : List Nat) (shift acc p lb sh : Nat) (rest : List Nat),
    slebLoop s shift acc = .ok (p, lb, sh, rest) → rest.length < s.length := by
  intro s
  induction s with
  | nil => intro shift acc p lb sh rest h; simp [slebLoop] at h
  | cons b tail ih =>
    intro shift acc p lb sh rest h
    simp only [slebLoop] at h
    split at h
    · simp at h
    · split at h
      · exact Nat.lt_trans (ih _ _ _ _ _ _ h) (Nat.lt_succ_self _)
      · simp only [Except.ok.injEq, Prod.mk.injEq] at h
        obtain ⟨-, -, -, rfl⟩ := h
        exact Nat.lt_succ_self _

theorem leb128_read_signed_length : ∀ (s : List Nat) (p : Nat) (rest : List Nat),
    leb128_read_signed s = .ok (p, rest) → rest.length < s.length := by
  intro s p rest h
  unfold leb128_read_signed at h
  cases hm : slebLoop s 0 0 with
  | error e => rw [hm] at h; simp at h
  | ok q =>
    obtain ⟨acc, lb, sh, r⟩ := q
    rw [hm] at h
    simp only at h
    have hr := slebLoop_length _ _ _ _ _ _ _ hm
    split at h <;> (simp only [Except.ok.injEq, Prod.mk.injEq] at h; exact h.2 ▸ hr)

theorem parse_varuint32_length : ∀ (s : List Nat) (v : Nat) (rest : List Nat),
    Section.parse_varuint32 s = .ok (v, rest) → rest.length < s.length := by
  intro s v rest h
  unfold Section.parse_varuint32 at h
  cases hm : leb128_read_signed s with
  | error e => rw [hm] at h; simp at h
  | ok q =>
    obtain ⟨p, r⟩ := q
    rw [hm] at h
    simp only [Except.ok.injEq, Prod.mk.injEq] at h
    exact h.2 ▸ leb128_read_signed_length _ _ _ hm

theorem parse_varint7_length : ∀ (s : List Nat) (v : Int) (rest : List Nat),
    Section.parse_varint7 s = .ok (v, rest) → rest.length < s.length := by
  intro s v rest h
  unfold Section.parse_varint7 at h
  cases hm : leb128_read_signed s with
  | error e => rw [hm] at h; simp at h
  | ok q =>
    obtain ⟨p, r⟩ := q
    rw [hm] at h
    simp only [Except.ok.injEq, Prod.mk.injEq] at h
    exact h.2 ▸ leb128_read_signed_length _ _ _ hm

theorem parse_varuint1_length : ∀ (s : List Nat) (v : Nat) (rest : List Nat),
    Section.parse_varuint1 s = .ok (v, rest) → rest.length < s.length := by
  intro s v rest h
  unfold Section.parse_varuint1 at h
  cases hm : leb128_read_signed s with
  | error e => rw [hm] at h; simp at h
  | ok q =>
    obtain ⟨p, r⟩ := q
    rw [hm] at h
    simp only [Except.ok.injEq, Prod.mk.injEq] at h
    exact h.2 ▸ leb128_read_signed_length _ _ _ hm

theorem readExact_length : ∀ (n : Nat) (s bs rest : List Nat),
    readExact n s = .ok (bs, rest) → rest.length ≤ s.length := by
  intro n s bs rest h
  unfold readExact at h
  split at h
  · simp only [Except.ok.injEq, Prod.mk.injEq] at h
    obtain ⟨-, rfl⟩ := h
    simp [List.length_drop]
  · exact absurd h (by simp)

theorem countLoop_length {α : Type} {p : List Nat → Except ParseError (α × List Nat)}
    (hp : ∀ s a rest, p s = .ok (a, rest) → rest.length ≤ s.length) :
    ∀ (n : Nat) (s : List Nat) (entries : List α) (rest : List Nat),
      countLoop p n s = .ok (entries, rest) → rest.length ≤ s.length := by
  intro n
  induction n with
  | zero =>
    intro s entries rest h
    simp only [countLoop, Except.ok.injEq, Prod.mk.injEq] at h
    obtain ⟨-, rfl⟩ := h
    exact Nat.le_refl _
  | succ n ih =>
    intro s entries rest h
    rw [countLoop] at h
    obtain ⟨a, s1, h1, h⟩ := tryBind_ok h
    obtain ⟨as2, s2, h2, h⟩ := tryBind_ok h
    simp only [Except.ok.injEq, Prod.mk.injEq] at h
    obtain ⟨-, rfl⟩ := h
    exact Nat.le_trans (ih _ _ _ h2) (hp _ _ _ h1)

theorem parse_value_type_length : ∀ (s : List Nat) (v : ValueType) (rest : List Nat),
    Section.parse_value_type s = .ok (v, rest) → rest.length ≤ s.length := by
  intro s v rest h
  unfold Section.parse_value_type at h
  obtain ⟨ty, s1, h1, h⟩ := tryBind_ok h
  have l1 := parse_varint7_length _ _ _ h1
  split_ifs at h <;>
    first
      | (simp only [Except.ok.injEq, Prod.mk.injEq] at h; obtain ⟨-, rfl⟩ := h; omega)
      | simp at h

theorem parse_func_type_length : ∀ (s : List Nat) (v : FuncType) (rest : List Nat),
    Section.parse_func_type s = .ok (v, rest) → rest.length ≤ s.length := by
  intro s v rest h
  unfold Section.parse_func_type at h
  obtain ⟨form, s1, h1, h⟩ := tryBind_ok h
  obtain ⟨pc, s2, h2, h⟩ := tryBind_ok h
  obtain ⟨pts, s3, h3, h⟩ := tryBind_ok h
  obtain ⟨rc, s4, h4, h⟩ := tryBind_ok h
  have l1 := parse_varint7_length _ _ _ h1
  have l2 := parse_varuint32_length _ _ _ h2
  have l3 := countLoop_length parse_value_type_length _ _ _ _ h3
  have l4 := parse_varuint1_length _ _ _ h4
  split at h
  · obtain ⟨ty, s5, h5, h⟩ := tryBind_ok h
    have l5 := parse_value_type_length _ _ _ h5
    simp only [Except.ok.injEq, Prod.mk.injEq] at h
    obtain ⟨-, rfl⟩ := h
    omega
  · simp only [Except.ok.injEq, Prod.mk.injEq] at h
    obtain ⟨-, rfl⟩ := h
    omega

theorem parse_type_section_length : ∀ (s : List Nat) (v : Section) (rest : List Nat),
    Section.parse_type_section s = .ok (v, rest) → rest.length ≤ s.length := by
  intro s v rest h
  unfold Section.parse_type_section at h
  obtain ⟨count, s1, h1, h⟩ := tryBind_ok h
  obtain ⟨entries, s2, h2, h⟩ := tryBind_ok h
  simp only [Except.ok.injEq, Prod.mk.injEq] at h
  obtain ⟨-, rfl⟩ := h
  have l1 := parse_varuint32_length _ _ _ h1
  have l2 := countLoop_length parse_func_type_length _ _ _ _ h2
  omega

theorem parse_varuint32_length_le : ∀ (s : List Nat) (v : Nat) (rest : List Nat),
    Section.parse_varuint32 s = .ok (v, rest) → rest.length ≤ s.length :=
  fun s v rest h => Nat.le_of_lt (parse_varuint32_length s v rest h)

theorem parse_function_section_length : ∀ (s : List Nat) (v : Section) (rest : List Nat),
    Section.parse_function_section s = .ok (v, rest) → rest.length ≤ s.length := by
  intro s v rest h
  unfold Section.parse_function_section at h
  obtain ⟨count, s1, h1, h⟩ := tryBind_ok h
  obtain ⟨types, s2, h2, h⟩ := tryBind_ok h
  simp only [Except.ok.injEq, Prod.mk.injEq] at h
  obtain ⟨-, rfl⟩ := h
  have l1 := parse_varuint32_length _ _ _ h1
  have l2 := countLoop_length parse_varuint32_length_le _ _ _ _ h2
  omega

theorem parse_export_entry_length : ∀ (s : List Nat) (v : ExportEntry) (rest : List Nat),
    Section.parse_export_entry s = .ok (v, rest) → rest.length ≤ s.length := by
  intro s v rest h
  unfold Section.parse_export_entry at h
  obtain ⟨field_len, s1, h1, h⟩ := tryBind_ok h
  obtain ⟨field_str, s2, h2, h⟩ := tryBind_ok h
  obtain ⟨kind_bytes, s3, h3, h⟩ := tryBind_ok h
  have l1 := parse_varuint32_length _ _ _ h1
  have l2 := readExact_length _ _ _ _ h2
  have l3 := readExact_length _ _ _ _ h3
  cases hk : parse_external_kind (kind_bytes.headD 0) with
  | error e => rw [hk] at h; simp at h
  | ok kind =>
    rw [hk] at h
    simp only at h
    obtain ⟨index, s4, h5, h⟩ := tryBind_ok h
    have l5 := parse_varuint32_length _ _ _ h5
    split at h
    · simp only [Except.ok.injEq, Prod.mk.injEq] at h
      obtain ⟨-, rfl⟩ := h
      omega
    · simp at h

theorem parse_export_section_length : ∀ (s : List Nat) (v : Section) (rest : List Nat),
    Section.parse_export_section s = .ok (v, rest) → rest.length ≤ s.length := by
  intro s v rest h
  unfold Section.parse_export_section at h
  obtain ⟨count, s1, h1, h⟩ := tryBind_ok h
  obtain ⟨entries, s2, h2, h⟩ := tryBind_ok h
  simp only [Except.ok.injEq, Prod.mk.injEq] at h
  obtain ⟨-, rfl⟩ := h
  have l1 := parse_varuint32_length _ _ _ h1
  have l2 := countLoop_length parse_export_entry_length _ _ _ _ h2
  omega

theorem parse_resizable_limits_length : ∀ (s : List Nat) (v : ResizableLimits) (rest : List Nat),
    Section.parse_resizable_limits s = .ok (v, rest) → rest.length ≤ s.length := by
  intro s v rest h
  unfold Section.parse_resizable_limits at h
  obtain ⟨flags, s1, h1, h⟩ := tryBind_ok h
  obtain ⟨initial, s2, h2, h⟩ := tryBind_ok h
  have l1 := parse_varuint1_length _ _ _ h1
  have l2 := parse_varuint32_length _ _ _ h2
  split at h
  · obtain ⟨maximum_raw, s3, h3, h⟩ := tryBind_ok h
    have l3 := parse_varuint32_length _ _ _ h3
    simp only [Except.ok.injEq, Prod.mk.injEq] at h
    obtain ⟨-, rfl⟩ := h
    omega
  · simp only [Except.ok.injEq, Prod.mk.injEq] at h
    obtain ⟨-, rfl⟩ := h
    omega

theorem parse_memory_type_length : ∀ (s : List Nat) (v : MemoryType) (rest : List Nat),
    Section.parse_memory_type s = .ok (v, rest) → rest.length ≤ s.length := by
  intro s v rest h
  unfold Section.parse_memory_type at h
  obtain ⟨limits, s1, h1, h⟩ := tryBind_ok h
  simp only [Except.ok.injEq, Prod.mk.injEq] at h
  obtain ⟨-, rfl⟩ := h
  exact parse_resizable_limits_length _ _ _ h1

theorem parse_memory_section_length : ∀ (s : List Nat) (v : Section) (rest : List Nat),
    Section.parse_memory_section s = .ok (v, rest) → rest.length ≤ s.length := by
  intro s v rest h
  unfold Section.parse_memory_section at h
  obtain ⟨count, s1, h1, h⟩ := tryBind_ok h
  obtain ⟨entries, s2, h2, h⟩ := tryBind_ok h
  simp only [Except.ok.injEq, Prod.mk.injEq] at h
  obtain ⟨-, rfl⟩ := h
  have l1 := parse_varuint32_length _ _ _ h1
  have l2 := countLoop_length parse_memory_type_length _ _ _ _ h2
  omega

theorem parse_start_section_length : ∀ (s : List Nat) (v : Section) (rest : List Nat),
    Section.parse_start_section s = .ok (v, rest) → rest.length ≤ s.length := by
  intro s v rest h
  unfold Section.parse_start_section at h
  obtain ⟨index, s1, h1, h⟩ := tryBind_ok h
  simp only [Except.ok.injEq, Prod.mk.injEq] at h
  obtain ⟨-, rfl⟩ := h
  exact Nat.le_of_lt (parse_varuint32_length _ _ _ h1)

theorem parse_local_entry_length : ∀ (s : List Nat) (v : LocalEntry) (rest : List Nat),
    Section.parse_local_entry s = .ok (v, rest) → rest.length ≤ s.length := by
  intro s v rest h
  unfold Section.parse_local_entry at h
  obtain ⟨count, s1, h1, h⟩ := tryBind_ok h
  obtain ⟨ty, s2, h2, h⟩ := tryBind_ok h
  simp only [Except.ok.injEq, Prod.mk.injEq] at h
  obtain ⟨-, rfl⟩ := h
  have l1 := parse_varuint32_length _ _ _ h1
  have l2 := parse_value_type_length _ _ _ h2
  omega

theorem parse_code_bytes_length : ∀ (s code rest : List Nat),
    Section.parse_code_bytes s = .ok (code, rest) → rest.length ≤ s.length := by
  intro s
  induction s with
  | nil => intro code rest h; simp [Section.parse_code_bytes] at h
  | cons b tail ih =>
    intro code rest h
    rw [Section.parse_code_bytes] at h
    split at h
    · simp only [Except.ok.injEq, Prod.mk.injEq] at h
      obtain ⟨-, rfl⟩ := h
      exact Nat.le_succ _
    · obtain ⟨code1, s1, h1, h⟩ := tryBind_ok h
      simp only [Except.ok.injEq, Prod.mk.injEq] at h
      obtain ⟨-, rfl⟩ := h
      exact Nat.le_trans (ih _ _ h1) (Nat.le_succ _)

theorem parse_function_body_length : ∀ (s : List Nat) (v : FunctionBody) (rest : List Nat),
    Section.parse_function_body s = .ok (v, rest) → rest.length ≤ s.length := by
  intro s v rest h
  unfold Section.parse_function_body at h
  obtain ⟨bsz, s1, h1, h⟩ := tryBind_ok h
  obtain ⟨lc, s2, h2, h⟩ := tryBind_ok h
  obtain ⟨locals, s3, h3, h⟩ := tryBind_ok h
  obtain ⟨code, s4, h4, h⟩ := tryBind_ok h
  simp only [Except.ok.injEq, Prod.mk.injEq] at h
  obtain ⟨-, rfl⟩ := h
  have l1 := parse_varuint32_length _ _ _ h1
  have l2 := parse_varuint32_length _ _ _ h2
  have l3 := countLoop_length parse_local_entry_length _ _ _ _ h3
  have l4 := parse_code_bytes_length _ _ _ h4
  omega

theorem parse_code_section_length : ∀ (s : List Nat) (v : Section) (rest : List Nat),
    Section.parse_code_section s = .ok (v, rest) → rest.length ≤ s.length := by
  intro s v rest h
  unfold Section.parse_code_section at h
  obtain ⟨count, s1, h1, h⟩ := tryBind_ok h
  obtain ⟨bodies, s2, h2, h⟩ := tryBind_ok h
  simp only [Except.ok.injEq, Prod.mk.injEq] at h
  obtain ⟨-, rfl⟩ := h
  have l1 := parse_varuint32_length _ _ _ h1
  have l2 := countLoop_length parse_function_body_length _ _ _ _ h2
  omega

theorem parse_custom_section_length : ∀ (s : List Nat) (payload_len : Nat) (v : Section)
    (rest : List Nat), Section.parse_custom_section s payload_len = .ok (v, rest) →
    rest.length ≤ s.length := by
  intro s payload_len v rest h
  unfold Section.parse_custom_section at h
  obtain ⟨name_len, s1, h1, h⟩ := tryBind_ok h
  obtain ⟨name, s2, h2, h⟩ := tryBind_ok h
  obtain ⟨payload, s3, h3, h⟩ := tryBind_ok h
  simp only [Except.ok.injEq, Prod.mk.injEq] at h
  obtain ⟨-, rfl⟩ := h
  have l1 := parse_varuint32_length _ _ _ h1
  have l2 := readExact_length _ _ _ _ h2
  have l3 := readExact_length _ _ _ _ h3
  omega

theorem parse_unknown_section_length : ∀ (s : List Nat) (id payload_len : Nat) (v : Section)
    (rest : List Nat), Section.parse_unknown_section s id payload_len = .ok (v, rest) →
    rest.length ≤ s.length := by
  intro s id payload_len v rest h
  unfold Section.parse_unknown_section at h
  obtain ⟨payload, s1, h1, h⟩ := tryBind_ok h
  simp only [Except.ok.injEq, Prod.mk.injEq] at h
  obtain ⟨-, rfl⟩ := h
  exact readExact_length _ _ _ _ h1

theorem Section.parse_length : ∀ (s : List Nat) (sec : Section) (rest : List Nat),
    Section.parse s = .ok (some (sec, rest)) → rest.length < s.length := by
  intro s sec rest h
  unfold Section.parse at h
  cases hm : Section.parse_varuint32 s with
  | error e => rw [hm] at h; simp at h
  | ok q =>
    obtain ⟨id, s1⟩ := q
    rw [hm] at h
    simp only at h
    obtain ⟨payload_len, s2, h2, h⟩ := tryBind_ok h
    obtain ⟨sec', s3, h3, h⟩ := tryBind_ok h
    simp only [Except.ok.injEq, Option.some.injEq, Prod.mk.injEq] at h
    obtain ⟨-, rfl⟩ := h
    have l1 := parse_varuint32_length _ _ _ hm
    have l2 := parse_varuint32_length _ _ _ h2
    have l3 : s3.length ≤ s2.length := by
      split_ifs at h3
      · exact parse_custom_section_length _ _ _ _ h3
      · exact parse_type_section_length _ _ _ h3
      · exact parse_function_section_length _ _ _ h3
      · exact parse_export_section_length _ _ _ h3
      · exact parse_start_section_length _ _ _ h3
      · exact parse_memory_section_length _ _ _ h3
      · exact parse_code_section_length _ _ _ h3
      · exact parse_unknown_section_length _ _ _ _ _ h3
    omega

/-! ### Module assembly (src/binary.rs, `Module::parse`) -/

/-- The section-collection loop of `Module::parse`: decode sections until
`Section::parse` reports "no more sections", aborting on the first error. -/
def parse_sections (s : List Nat) : Except ParseError (List Section) :=
  match hsec : Section.parse s with
  | .error e => .error e
  | .ok none => .ok []
  | .ok (some (sec, rest)) =>
    match parse_sections rest with
    | .error e => .error e
    | .ok secs => .ok (sec :: secs)
termination_by s.length
decreasing_by exact Section.parse_length _ _ _ hsec

/-- One-step unfolding of `parse_sections` without the dependent termination
hypothesis, used to evaluate the loop. -/
theorem parse_sections_eq (s : List Nat) :
    parse_sections s =
      match Section.parse s with
      | .error e => .error e
      | .ok none => .ok []
      | .ok (some (sec, rest)) =>
        match parse_sections rest with
        | .error e => .error e
        | .ok secs => .ok (sec :: secs) := by
  rw [parse_sections.eq_def]
  cases h : Section.parse s with
  | error e => rfl
  | ok o =>
    cases o with
    | none => rfl
    | some q => obtain ⟨sec, rest⟩ := q; rfl

/-- Little-endian `u32` read (`ReadBytesExt::read_u32::<LittleEndian>`); `none`
models the `unwrap` panic of `Module::parse` when fewer than 4 bytes remain. -/
def read_u32_le : List Nat → Option (Nat × List Nat)
  | b0 :: b1 :: b2 :: b3 :: rest =>
    some (b0 + 256 * b1 + 65536 * b2 + 16777216 * b3, rest)
  | _ => none

/-- Embedding of `Module::parse`.  The outer `Option` models the unchecked
`unwrap` on the two header reads (`none` is the panic); the inner `Except`
carries the `ParseError` results the function itself returns. -/
def Module.parse (s : List Nat) : Option (Except ParseError Module) :=
  match read_u32_le s with
  | none => none
  | some (magic_number, s1) =>
    if magic_number ≠ 0x6d736100 then some (.error (.BadMagic magic_number))
    else
      match read_u32_le s1 with
      | none => none
      | some (version, s2) =>
        if version ≠ 1 then some (.error (.UnsupportedVersion version))
        else
          match parse_sections s2 with
          | .error e => some (.error e)
          | .ok sections =>
            some (.ok { magic_number := magic_number, version := version,
                        sections := sections })

/-! ### Start resolution (src/binary.rs, `find_start_func` / `find_func`) -/

/-- The `Start`-scanning loop of `Module::find_start_func`: the accumulator is
overwritten by every `Start` section encountered, so the last one wins. -/
def find_start_idx : List Section → Option Nat → Option Nat
  | [], acc => acc
  | .Start i :: rest, _ => find_start_idx rest (some i)
  | _ :: rest, acc => find_start_idx rest acc

/-- The `Code`-scanning loop of `Module::find_func`, which returns at the first
`Code` section.  `bodies[idx]` panics when `idx` is out of range: the outer
`Option` is `none` for that panic, `some none` for "no Code section", and
`some (some body)` for success. -/
def find_func_in : List Section → Nat → Option (Option FunctionBody)
  | [], _ => some none
  | .Code bodies :: _, idx => (bodies.get? idx).map some
  | _ :: rest, idx => find_func_in rest idx

/-- Embedding of `Module::find_func` (panic convention of `find_func_in`). -/
def Module.find_func (m : Module) (idx : Nat) : Option (Option FunctionBody) :=
  find_func_in m.sections idx

/-- Embedding of `Module::find_start_func` (panic convention of
`find_func_in`). -/
def Module.find_start_func (m : Module) : Option (Option FunctionBody) :=
  match find_start_idx m.sections none with
  | some idx => m.find_func idx
  | none => some none

/-! ### JIT compilation loop (src/bin/motor.rs) -/

/-- A native instruction emitted by the JIT loop of `main` in src/bin/motor.rs;
only the `ret` of the `OPC_RETURN` arm exists. -/
inductive NativeInsn where
  | ret
deriving DecidableEq, Repr

/-- Modelled from the spec: `OPC_RETURN` is imported from the repository's
`opcode` module, which is not under src/.  The spec fixes only that the opcode
`RETURN` maps to a native return; the concrete value (the wasm `return` opcode
0x0F) is incidental to every property proved about it. -/
def OPC_RETURN : Nat := 0x0F

/-- The JIT compilation loop of `main` in src/bin/motor.rs: each `OPC_RETURN`
byte appends a native return instruction; any other byte panics
("Unsupported instruction", modelled as `none`), so no code buffer results. -/
def compile (code : List Nat) : Option (List NativeInsn) :=
  match code with
  | [] => some []
  | b :: rest =>
    if b = OPC_RETURN then (compile rest).map (fun l => NativeInsn.ret :: l)
    else none

/-! ### Specification-side definitions

The encoders (the repository contains none) and the descriptions of
`find_start_func` used to state the claims. -/

/-- Modelled from the spec: the standard unsigned LEB128 encoding of a
nonnegative integer — "each byte contributes 7 value bits plus a continuation
bit". -/
def leb128_write_unsigned (n : Nat) : List Nat :=
  if h : n < 128 then [n]
  else (n % 128 + 128) :: leb128_write_unsigned (n / 128)
decreasing_by exact Nat.div_lt_self (by omega) (by omega)

/-- Modelled from the spec: the signed LEB128 encoding (`leb128::write::signed`)
restricted to nonnegative values — emit 7 bits per byte until the remaining
value fits in 6 bits, so the final byte's sign bit is clear. -/
def leb128_write_signed (n : Nat) : List Nat :=
  if h : n < 64 then [n]
  else (n % 128 + 128) :: leb128_write_signed (n / 128)
decreasing_by exact Nat.div_lt_self (by omega) (by omega)

/-- Index carried by the last `Start` section of a section list, if any
(specification helper for the claims about `find_start_func`). -/
def lastStartIndex : List Section → Option Nat
  | [] => none
  | .Start i :: rest => some ((lastStartIndex rest).getD i)
  | _ :: rest => lastStartIndex rest

/-- Bodies of the first `Code` section of a section list, if any
(specification helper for the claims about `find_start_func`). -/
def firstCodeBodies : List Section → Option (List FunctionBody)
  | [] => none
  | .Code bodies :: _ => some bodies
  | _ :: rest => firstCodeBodies rest

/-- The 8 header bytes of a version-1 wasm module: little-endian magic
`0x6d736100` followed by little-endian version 1. -/
def wasmHeader : List Nat := [0x00, 0x61, 0x73, 0x6D, 0x01, 0x00, 0x00, 0x00]

/-! ### Helper characterizations -/

/-- On a stream with a valid header, `Module.parse` is the section loop. -/
theorem Module.parse_wasmHeader (s : List Nat) :
    Module.parse (wasmHeader ++ s) =
      match parse_sections s with
      | .error e => some (.error e)
      | .ok sections => some (.ok ⟨0x6d736100, 1, sections⟩) := by
  simp only [wasmHeader, List.cons_append, List.nil_append, Module.parse, read_u32_le]
  norm_num

/-- The `Start`-scanning loop keeps the index of the last `Start` section,
falling back to its accumulator. -/
theorem find_start_idx_eq (ss : List Section) (acc : Option Nat) :
    find_start_idx ss acc =
      match lastStartIndex ss with
      | some i => some i
      | none => acc := by
  induction ss generalizing acc with
  | nil => rfl
  | cons sec rest ih =>
    cases sec
    case Start i =>
      simp only [find_start_idx, lastStartIndex, ih]
      cases lastStartIndex rest <;> rfl
    all_goals simpa only [find_start_idx, lastStartIndex] using ih acc

/-- The `Code`-scanning loop returns from the first `Code` section. -/
theorem find_func_in_eq (ss : List Section) (idx : Nat) :
    find_func_in ss idx =
      match firstCodeBodies ss with
      | none => some none
      | some bodies => (bodies.get? idx).map some := by
  induction ss with
  | nil => rfl
  | cons sec rest ih => cases sec <;> simp only [find_func_in, firstCodeBodies, ih]

/-- Characterization of `Module::find_start_func`: the index of the last
`Start` section, resolved in the bodies of the first `Code` section. -/
theorem Module.find_start_func_eq (m : Module) :
    m.find_start_func =
      match lastStartIndex m.sections with
      | none => some none
      | some i =>
        match firstCodeBodies m.sections with
        | none => some none
        | some bodies => (bodies.get? i).map some := by
  unfold Module.find_start_func
  rw [find_start_idx_eq]
  cases lastStartIndex m.sections with
  | none => rfl
  | some i => simp only [Module.find_func, find_func_in_eq]

/-- The code loop takes exactly the bytes before the first `0x0B`. -/
theorem parse_code_bytes_spec : ∀ (s code rest : List Nat),
    Section.parse_code_bytes s = .ok (code, rest) →
    code = s.takeWhile (fun b => b != 11) := by
  intro s
  induction s with
  | nil => intro code rest h; simp [Section.parse_code_bytes] at h
  | cons b tail ih =>
    intro code rest h
    rw [Section.parse_code_bytes] at h
    split at h
    · next hb =>
      simp only [Except.ok.injEq, Prod.mk.injEq] at h
      obtain ⟨hc, -⟩ := h
      subst hb
      simp [List.takeWhile_cons, ← hc]
    · next hb =>
      obtain ⟨code1, s1, h1, h⟩ := tryBind_ok h
      simp only [Except.ok.injEq, Prod.mk.injEq] at h
      obtain ⟨hc, -⟩ := h
      subst hc
      simp [List.takeWhile_cons, hb, ih _ _ h1]

/-! ### LEB128 encode/decode round-trip lemmas -/

theorem lor_low_high {k a : Nat} (b : Nat) (h : a < 2 ^ k) :
    a ||| b * 2 ^ k = a + b * 2 ^ k := by
  have h2 := Nat.mul_add_lt_is_or (i := k) h b
  calc a ||| b * 2 ^ k = 2 ^ k * b ||| a := by rw [Nat.lor_comm, Nat.mul_comm]
  _ = 2 ^ k * b + a := h2.symm
  _ = a + b * 2 ^ k := by ring

theorem leb128_write_signed_len_bound : ∀ (k n : Nat), n < 2 ^ (6 + 7 * k) →
    (leb128_write_signed n).length ≤ k + 1 := by
  intro k
  induction k with
  | zero =>
    intro n h
    rw [leb128_write_signed, dif_pos (by simpa using h)]
    simp
  | succ k ih =>
    intro n h
    rw [leb128_write_signed]
    by_cases hn : n < 64
    · rw [dif_pos hn]; simp
    · rw [dif_neg hn]
      have hd : n / 128 < 2 ^ (6 + 7 * k) := by
        apply Nat.div_lt_of_lt_mul
        calc n < 2 ^ (6 + 7 * (k + 1)) := h
        _ = 128 * 2 ^ (6 + 7 * k) := by
              rw [show 6 + 7 * (k + 1) = 7 + (6 + 7 * k) by ring, pow_add]
              norm_num
      simpa using Nat.add_le_add_right (ih _ hd) 1

theorem slebLoop_encode : ∀ (n shift acc : Nat) (extra : List Nat),
    acc < 2 ^ shift →
    shift + 7 * (leb128_write_signed n).length ≤ 63 →
    ∃ lb, lb < 64 ∧ slebLoop (leb128_write_signed n ++ extra) shift acc =
        .ok (acc + n * 2 ^ shift, lb, shift + 7 * (leb128_write_signed n).length, extra) := by
  intro n
  induction n using Nat.strong_induction_on with
  | _ n ih =>
    intro shift acc extra hacc hshift
    by_cases hn : n < 64
    · rw [leb128_write_signed, dif_pos hn] at hshift ⊢
      simp only [List.length_cons, List.length_nil] at hshift ⊢
      refine ⟨n, hn, ?_⟩
      rw [List.cons_append]
      simp only [slebLoop]
      rw [if_neg (by omega)]
      rw [if_neg (by omega)]
      have e1 : n % 128 = n := Nat.mod_eq_of_lt (by omega)
      have e2 : n * 2 ^ shift % 2 ^ 64 = n * 2 ^ shift := by
        apply Nat.mod_eq_of_lt
        calc n * 2 ^ shift < 64 * 2 ^ shift :=
              Nat.mul_lt_mul_of_lt_of_le hn (Nat.le_refl _) (Nat.pos_pow_of_pos _ (by norm_num))
        _ = 2 ^ (6 + shift) := by rw [pow_add]; norm_num
        _ ≤ 2 ^ 64 := Nat.pow_le_pow_right (by norm_num) (by omega)
      rw [e1, e2, lor_low_high _ hacc]
      norm_num
    · rw [leb128_write_signed, dif_neg hn] at hshift ⊢
      simp only [List.length_cons] at hshift ⊢
      have hsh56 : shift ≤ 49 := by
        have : 1 ≤ (leb128_write_signed (n / 128)).length := by
          rw [leb128_write_signed]
          split <;> simp
        omega
      rw [List.cons_append]
      simp only [slebLoop]
      rw [if_neg (by omega)]
      rw [if_pos (by omega)]
      have e1 : (n % 128 + 128) % 128 = n % 128 := by omega
      have e2 : n % 128 * 2 ^ shift % 2 ^ 64 = n % 128 * 2 ^ shift := by
        apply Nat.mod_eq_of_lt
        calc n % 128 * 2 ^ shift < 128 * 2 ^ shift :=
              Nat.mul_lt_mul_of_lt_of_le (Nat.mod_lt _ (by norm_num)) (Nat.le_refl _)
                (Nat.pos_pow_of_pos _ (by norm_num))
        _ = 2 ^ (7 + shift) := by rw [pow_add]; norm_num
        _ ≤ 2 ^ 64 := Nat.pow_le_pow_right (by norm_num) (by omega)
      rw [e1, e2, lor_low_high _ hacc]
      have hacc' : acc + n % 128 * 2 ^ shift < 2 ^ (shift + 7) := by
        have h128 : n % 128 < 128 := Nat.mod_lt _ (by norm_num)
        calc acc + n % 128 * 2 ^ shift < 2 ^ shift + 127 * 2 ^ shift := by
              have : n % 128 * 2 ^ shift ≤ 127 * 2 ^ shift :=
                Nat.mul_le_mul_right _ (by omega)
              omega
        _ = 2 ^ (shift + 7) := by rw [pow_add]; ring
      have hdiv : n / 128 < n := Nat.div_lt_self (by omega) (by norm_num)
      obtain ⟨lb, hlb, heq⟩ := ih (n / 128) hdiv (shift + 7) (acc + n % 128 * 2 ^ shift)
        extra hacc' (by omega)
      refine ⟨lb, hlb, ?_⟩
      rw [heq]
      have : acc + n % 128 * 2 ^ shift + n / 128 * 2 ^ (shift + 7) = acc + n * 2 ^ shift := by
        have hsplit : n % 128 + 128 * (n / 128) = n := Nat.mod_add_div n 128
        calc acc + n % 128 * 2 ^ shift + n / 128 * 2 ^ (shift + 7)
            = acc + (n % 128 + 128 * (n / 128)) * 2 ^ shift := by rw [pow_add]; ring
        _ = acc + n * 2 ^ shift := by rw [hsplit]
      rw [this]
      have harith : shift + 7 + 7 * (leb128_write_signed (n / 128)).length =
          shift + 7 * ((leb128_write_signed (n / 128)).length + 1) := by ring
      rw [harith]

theorem leb128_read_signed_of_slebLoop {s : List Nat} {acc lb sh : Nat} {rest : List Nat}
    (h : slebLoop s 0 0 = .ok (acc, lb, sh, rest)) :
    leb128_read_signed s =
      if sh < 64 ∧ lb / 64 % 2 = 1 then .ok (acc ||| (2 ^ 64 - 2 ^ sh), rest)
      else .ok (acc, rest) := by
  unfold leb128_read_signed
  rw [h]

theorem leb128_read_signed_write (v : Nat) (extra : List Nat) (hv : v < 2 ^ 32) :
    leb128_read_signed (leb128_write_signed v ++ extra) = .ok (v, extra) := by
  have hlen : (leb128_write_signed v).length ≤ 5 :=
    leb128_write_signed_len_bound 4 v (lt_trans hv (by norm_num))
  obtain ⟨lb, hlb, heq⟩ := slebLoop_encode v 0 0 extra (by norm_num) (by omega)
  have hsign : ¬(0 + 7 * (leb128_write_signed v).length < 64 ∧ lb / 64 % 2 = 1) := by
    rintro ⟨-, h2⟩
    rw [Nat.div_eq_of_lt hlb] at h2
    simp at h2
  rw [leb128_read_signed_of_slebLoop heq, if_neg hsign]
  norm_num

theorem leb128_write_unsigned_eq (n : Nat) :
    leb128_write_unsigned n =
      if n < 128 then [n] else (n % 128 + 128) :: leb128_write_unsigned (n / 128) := by
  rw [leb128_write_unsigned]
  by_cases h : n < 128
  · rw [dif_pos h, if_pos h]
  · rw [dif_neg h, if_neg h]

/-! ### Claim theorems -/

/-- C1 counterexample: encoding the `u32` value 64 with the standard unsigned
LEB128 encoding gives the single byte `0x40`, whose bit 6 the signed decoder of
`parse_varuint32` treats as a sign bit: decoding returns `0xFFFFFFC0`
(4294967232), not 64, so the unsigned-encode/varuint32-decode round trip fails. -/
theorem varuint32_unsigned_encode_not_roundtrip :
    leb128_write_unsigned 64 = [64] ∧
    Section.parse_varuint32 (leb128_write_unsigned 64) = .ok (4294967232, []) ∧
    (4294967232 : Nat) ≠ 64 := by
  have h : leb128_write_unsigned 64 = [64] := by rw [leb128_write_unsigned_eq]; norm_num
  refine ⟨h, ?_, by norm_num⟩
  rw [h]
  decide

/-- C1 (amended): for every `u32` value `v`, encoding `v` with the **signed**
LEB128 encoding (the encoding that `parse_varuint32`'s signed decoder inverts)
and decoding it via the varuint32 path returns `v`, leaving the rest of the
stream untouched. -/
theorem varuint32_roundtrip_signed_encode (v : Nat) (extra : List Nat) (hv : v < 2 ^ 32) :
    Section.parse_varuint32 (leb128_write_signed v ++ extra) = .ok (v, extra) := by
  unfold Section.parse_varuint32
  rw [leb128_read_signed_write v extra hv]
  show (Except.ok (v % 2 ^ 32, extra) : Except ParseError (Nat × List Nat)) = .ok (v, extra)
  rw [Nat.mod_eq_of_lt hv]

/-- Witness for C1 (amended) at `v = 300`. -/
theorem varuint32_roundtrip_signed_encode_witness :
    Section.parse_varuint32 (leb128_write_signed 300 ++ [7]) = .ok (300, [7]) :=
  varuint32_roundtrip_signed_encode 300 [7] (by norm_num)

/-- C2: decoding a Custom section whose `payload_len` is 1 and whose `name_len`
is 0 from the stream `[0, 1, 0, 170, 187]` (id, payload_len, name_len, then two
further bytes).  The code consumes the name-length field, the (empty) name and
then a **further** `payload_len` bytes, leaving `[187]`; under the claim — the
name length counting against `payload_len`, hence exactly `payload_len` = 1
bytes consumed after the payload-length field — the remainder would be
`[170, 187]`. -/
theorem parse_custom_section_overconsumes :
    Section.parse [0, 1, 0, 170, 187] = .ok (some (.Custom, [187])) ∧
    ([187] : List Nat) ≠ [170, 187] := by decide

/-- C3 counterexample: a module whose sections contain a Start section with
index 0 and a Code section with more than 0 bodies, for which `find_start_func`
does not return the body at position 0: the module also contains a later Start
section with index 1, and the scan keeps the **last** Start index. -/
theorem find_start_func_counterexample :
    Section.Start 0 ∈ (Module.mk 0x6d736100 1
        [.Start 0, .Start 1, .Code [⟨[], []⟩, ⟨[], [15]⟩]]).sections ∧
    Section.Code [⟨[], []⟩, ⟨[], [15]⟩] ∈ (Module.mk 0x6d736100 1
        [.Start 0, .Start 1, .Code [⟨[], []⟩, ⟨[], [15]⟩]]).sections ∧
    (0 : Nat) < [(⟨[], []⟩ : FunctionBody), ⟨[], [15]⟩].length ∧
    [(⟨[], []⟩ : FunctionBody), ⟨[], [15]⟩].get? 0 = some ⟨[], []⟩ ∧
    (Module.mk 0x6d736100 1 [.Start 0, .Start 1,
        .Code [⟨[], []⟩, ⟨[], [15]⟩]]).find_start_func ≠ some (some ⟨[], []⟩) := by
  decide

/-- C3 (amended): when the **last** Start section carries index `i` and the
**first** Code section's body list has more than `i` entries, `find_start_func`
returns the body at position `i` of that list; with no Start section it returns
none. -/
theorem find_start_func_last_start_first_code (m : Module) :
    (∀ i bodies b, lastStartIndex m.sections = some i →
        firstCodeBodies m.sections = some bodies → bodies.get? i = some b →
        m.find_start_func = some (some b)) ∧
    (lastStartIndex m.sections = none → m.find_start_func = some none) := by
  constructor
  · intro i bodies b hi hb hget
    rw [Module.find_start_func_eq, hi, hb]
    show (bodies.get? i).map some = some (some b)
    rw [hget]
    rfl
  · intro hnone
    rw [Module.find_start_func_eq, hnone]

/-- Witness for C3 (amended): a one-Start, one-Code module resolves to the
single body, and a module with no Start section resolves to none. -/
theorem find_start_func_last_start_first_code_witness :
    (Module.mk 0x6d736100 1 [.Start 0, .Code [⟨[], [15]⟩]]).find_start_func =
      some (some ⟨[], [15]⟩) ∧
    (Module.mk 0x6d736100 1 [.Custom]).find_start_func = some none :=
  ⟨(find_start_func_last_start_first_code _).1 0 [⟨[], [15]⟩] ⟨[], [15]⟩
      (by decide) (by decide) (by decide),
    (find_start_func_last_start_first_code _).2 (by decide)⟩

/-- C4: the JIT loop compiles a body successfully when every byte is
`OPC_RETURN` (each byte mapping to a native return), and any byte outside the
mapping aborts compilation with no code buffer produced. -/
theorem compile_return_mapping (code : List Nat) :
    ((∀ b ∈ code, b = OPC_RETURN) →
        compile code = some (code.map fun _ => NativeInsn.ret)) ∧
    (∀ b ∈ code, b ≠ OPC_RETURN → compile code = none) := by
  induction code with
  | nil => exact ⟨fun _ => rfl, fun b hb => absurd hb (List.not_mem_nil b)⟩
  | cons c rest ih =>
    constructor
    · intro hall
      have hc : c = OPC_RETURN := hall c (by simp)
      have hrest := ih.1 fun b hb => hall b (by simp [hb])
      simp [compile, hc, hrest]
    · intro b hb hbne
      rcases List.mem_cons.mp hb with rfl | hmem
      · simp [compile, hbne]
      · by_cases hc : c = OPC_RETURN
        · have := ih.2 b hmem hbne
          simp [compile, hc, this]
        · simp [compile, hc]

/-- Witness for C4: a body of one `OPC_RETURN` byte compiles to one native
return; the byte 0 is not in the mapping and compilation yields no buffer. -/
theorem compile_return_mapping_witness :
    compile [15] = some [NativeInsn.ret] ∧ compile [0] = none :=
  ⟨(compile_return_mapping [15]).1 (by decide),
   (compile_return_mapping [0]).2 0 (by decide) (by decide)⟩

/-- C5: whenever reading the section id fails — for any error of the varuint32
decode, I/O or overflow alike — `Section::parse` reports "no more sections"
(`Ok(None)`), the section loop ends with the sections read so far, and module
parsing succeeds. -/
theorem section_parse_id_read_failure (s : List Nat) (e : ParseError)
    (h : Section.parse_varuint32 s = .error e) :
    Section.parse s = .ok none ∧ parse_sections s = .ok [] ∧
      Module.parse (wasmHeader ++ s) = some (.ok ⟨0x6d736100, 1, []⟩) := by
  have h1 : Section.parse s = .ok none := by
    unfold Section.parse
    rw [h]
  have h2 : parse_sections s = .ok [] := by
    rw [parse_sections_eq, h1]
  refine ⟨h1, h2, ?_⟩
  rw [Module.parse_wasmHeader, h2]

/-- Witness for C5: the stream `[0x80]` (a truncated LEB128 integer, not a
clean end of stream) still terminates section parsing successfully. -/
theorem section_parse_id_read_failure_witness :
    Section.parse [128] = .ok none ∧ parse_sections [128] = .ok [] ∧
      Module.parse (wasmHeader ++ [128]) = some (.ok ⟨0x6d736100, 1, []⟩) :=
  section_parse_id_read_failure [128] (.DecodeError .ioError) (by decide)

/-- C6: a structured section decode error aborts everything with that error:
the section loop propagates the first error of `Section::parse` (also from
deeper iterations), and `Module::parse` then returns exactly that error — an
error result, never a partial module. -/
theorem module_parse_fail_fast :
    (∀ s e, Section.parse s = .error e → parse_sections s = .error e) ∧
    (∀ s sec rest e, Section.parse s = .ok (some (sec, rest)) →
        parse_sections rest = .error e → parse_sections s = .error e) ∧
    (∀ s e, parse_sections s = .error e →
        Module.parse (wasmHeader ++ s) = some (.error e)) := by
  refine ⟨?_, ?_, ?_⟩
  · intro s e h
    rw [parse_sections_eq, h]
  · intro s sec rest e h1 h2
    rw [parse_sections_eq, h1]
    simp only [h2]
  · intro s e h
    rw [Module.parse_wasmHeader, h]

/-- Witness for C6: a Type section with a truncated payload aborts the loop
both at the first section and after a preceding Start section, and the module
parse returns the error. -/
theorem module_parse_fail_fast_witness :
    parse_sections [1, 1] = .error (.DecodeError .ioError) ∧
    parse_sections [8, 1, 5, 1, 1] = .error (.DecodeError .ioError) ∧
    Module.parse (wasmHeader ++ [1, 1]) = some (.error (.DecodeError .ioError)) := by
  have h1 : parse_sections [1, 1] = .error (.DecodeError .ioError) :=
    module_parse_fail_fast.1 [1, 1] _ (by decide)
  exact ⟨h1, module_parse_fail_fast.2.1 [8, 1, 5, 1, 1] (.Start 5) [1, 1] _ (by decide) h1,
    module_parse_fail_fast.2.2 [1, 1] _ h1⟩

/-- C7: a stream whose first four little-endian bytes form any value other than
`0x6d736100` makes `Module::parse` return `BadMagic` with that value, whatever
the remaining bytes are — no version check and no section read happens. -/
theorem module_parse_bad_magic (b0 b1 b2 b3 : Nat) (rest : List Nat)
    (h : b0 + 256 * b1 + 65536 * b2 + 16777216 * b3 ≠ 0x6d736100) :
    Module.parse (b0 :: b1 :: b2 :: b3 :: rest) =
      some (.error (.BadMagic (b0 + 256 * b1 + 65536 * b2 + 16777216 * b3))) := by
  unfold Module.parse
  simp only [read_u32_le]
  rw [if_pos h]

/-- Witness for C7 at the header `[1, 0, 0, 0]`. -/
theorem module_parse_bad_magic_witness :
    Module.parse [1, 0, 0, 0] = some (.error (.BadMagic 1)) := by
  simpa using module_parse_bad_magic 1 0 0 0 [] (by norm_num)

/-- C8: a parsed `FunctionBody`'s `code` is exactly the stream bytes after the
local entries up to (and excluding) the first `0x0B` byte, so `0x0B` never
occurs in a parsed body's `code`. -/
theorem function_body_code_before_end_marker :
    (∀ s code rest, Section.parse_code_bytes s = .ok (code, rest) →
        code = s.takeWhile (fun b => b != 11) ∧ ¬ 11 ∈ code) ∧
    (∀ s body rest, Section.parse_function_body s = .ok (body, rest) →
        (∃ s3, Section.parse_code_bytes s3 = .ok (body.code, rest) ∧
          body.code = s3.takeWhile (fun b => b != 11)) ∧ ¬ 11 ∈ body.code) := by
  have hmem : ∀ (s code rest : List Nat), Section.parse_code_bytes s = .ok (code, rest) →
      ¬ 11 ∈ code := by
    intro s code rest h hmem
    rw [parse_code_bytes_spec s code rest h] at hmem
    have := List.mem_takeWhile_imp hmem
    simp at this
  refine ⟨fun s code rest h => ⟨parse_code_bytes_spec s code rest h, hmem s code rest h⟩, ?_⟩
  intro s body rest h
  unfold Section.parse_function_body at h
  obtain ⟨bsz, s1, h1, h⟩ := tryBind_ok h
  obtain ⟨lc, s2, h2, h⟩ := tryBind_ok h
  obtain ⟨locals, s3, h3, h⟩ := tryBind_ok h
  obtain ⟨code, s4, h4, h⟩ := tryBind_ok h
  simp only [Except.ok.injEq, Prod.mk.injEq] at h
  obtain ⟨hb, rfl⟩ := h
  subst hb
  exact ⟨⟨s3, h4, parse_code_bytes_spec _ _ _ h4⟩, hmem _ _ _ h4⟩

/-- Witness for C8: the code loop on `[1, 2, 11, 5]` yields `[1, 2]`, and a
whole function body parsed from `[0, 0, 15, 11, 99]` carries code `[15]`. -/
theorem function_body_code_before_end_marker_witness :
    (([1, 2] : List Nat) = [1, 2, 11, 5].takeWhile (fun b => b != 11) ∧
      ¬ (11 : Nat) ∈ ([1, 2] : List Nat)) ∧
    ((∃ s3, Section.parse_code_bytes s3 = .ok (([15] : List Nat), [99]) ∧
        ([15] : List Nat) = s3.takeWhile (fun b => b != 11)) ∧
      ¬ (11 : Nat) ∈ ([15] : List Nat)) :=
  ⟨function_body_code_before_end_marker.1 [1, 2, 11, 5] [1, 2] [5] (by decide),
   function_body_code_before_end_marker.2 [0, 0, 15, 11, 99] ⟨[], [15]⟩ [99] (by decide)⟩

/-- C9: decoding resizable limits reads a one-byte (`u8`-valued) flag via
`parse_varuint1` first, then `initial` via `parse_varuint32`; the decoded
`maximum` is `some` exactly when the flag equals 1, in which case its value is
read via `parse_varuint32` after `initial`. -/
theorem parse_resizable_limits_flag_semantics (s : List Nat) (lim : ResizableLimits)
    (rest : List Nat) (h : Section.parse_resizable_limits s = .ok (lim, rest)) :
    ∃ flags s1 initial s2,
      Section.parse_varuint1 s = .ok (flags, s1) ∧
      Section.parse_varuint32 s1 = .ok (initial, s2) ∧
      lim.initial = initial ∧ (lim.maximum.isSome ↔ flags = 1) ∧
      ((flags = 1 ∧ ∃ m s3, Section.parse_varuint32 s2 = .ok (m, s3) ∧
          lim.maximum = some m ∧ rest = s3) ∨
        (flags ≠ 1 ∧ lim.maximum = none ∧ rest = s2)) := by
  unfold Section.parse_resizable_limits at h
  obtain ⟨flags, s1, h1, h⟩ := tryBind_ok h
  obtain ⟨initial, s2, h2, h⟩ := tryBind_ok h
  refine ⟨flags, s1, initial, s2, h1, h2, ?_⟩
  split at h
  · next hf =>
    obtain ⟨m, s3, h3, h⟩ := tryBind_ok h
    simp only [Except.ok.injEq, Prod.mk.injEq] at h
    obtain ⟨hl, rfl⟩ := h
    subst hl
    exact ⟨rfl, by simp [hf], .inl ⟨hf, m, s3, h3, rfl, rfl⟩⟩
  · next hf =>
    simp only [Except.ok.injEq, Prod.mk.injEq] at h
    obtain ⟨hl, rfl⟩ := h
    subst hl
    exact ⟨rfl, by simp [hf], .inr ⟨hf, rfl, rfl⟩⟩

/-- Witness for C9 on the stream `[1, 5, 10]`: flag 1, initial 5, maximum 10. -/
theorem parse_resizable_limits_flag_semantics_witness :
    ∃ flags s1 initial s2,
      Section.parse_varuint1 [1, 5, 10] = .ok (flags, s1) ∧
      Section.parse_varuint32 s1 = .ok (initial, s2) ∧
      (ResizableLimits.mk 5 (some 10)).initial = initial ∧
      ((ResizableLimits.mk 5 (some 10)).maximum.isSome ↔ flags = 1) ∧
      ((flags = 1 ∧ ∃ m s3, Section.parse_varuint32 s2 = .ok (m, s3) ∧
          (ResizableLimits.mk 5 (some 10)).maximum = some m ∧ ([] : List Nat) = s3) ∨
        (flags ≠ 1 ∧ (ResizableLimits.mk 5 (some 10)).maximum = none ∧
          ([] : List Nat) = s2)) :=
  parse_resizable_limits_flag_semantics [1, 5, 10] ⟨5, some 10⟩ [] (by decide)

/-- C10: with a Start section but no Code section, `find_start_func` returns
none without failing; with several Start sections, the index used is the one of
the last Start section in section order, resolved in the bodies of the first
Code section in section order. -/
theorem find_start_func_start_no_code_and_last_start (m : Module) :
    ((∃ i, Section.Start i ∈ m.sections) → firstCodeBodies m.sections = none →
        m.find_start_func = some none) ∧
    (∀ i bodies, lastStartIndex m.sections = some i →
        firstCodeBodies m.sections = some bodies →
        m.find_start_func = (bodies.get? i).map some) := by
  constructor
  · intro hstart hcode
    rw [Module.find_start_func_eq]
    cases h : lastStartIndex m.sections with
    | none => rfl
    | some i => rw [hcode]
  · intro i bodies hi hb
    rw [Module.find_start_func_eq, hi, hb]

/-- Witness for C10: Start with no Code resolves to none; two Start sections
(0 then 1) with a two-body Code section resolve at index 1 of the first Code
section's bodies. -/
theorem find_start_func_start_no_code_and_last_start_witness :
    (Module.mk 0x6d736100 1 [.Start 3]).find_start_func = some none ∧
    (Module.mk 0x6d736100 1 [.Start 0, .Start 1,
        .Code [⟨[], []⟩, ⟨[], [15]⟩]]).find_start_func =
      ([(⟨[], []⟩ : FunctionBody), ⟨[], [15]⟩].get? 1).map some :=
  ⟨(find_start_func_start_no_code_and_last_start _).1 ⟨3, by decide⟩ (by decide),
   (find_start_func_start_no_code_and_last_start _).2 1 _ (by decide) (by decide)⟩

end Motor
